import Mathlib

set_option linter.unnecessarySimpa false

/-!
Shallow embedding of the kilo-in-c text editor (src/kilo.c) and proofs of the
specified properties.  Rows are modelled as lists of characters, machine
integers as `Nat`/`Int`, and the global editor state as explicit records
threaded through the operations.
-/

namespace Kilo

/-- Constant `KILO_TAB_STOP` from kilo.c. -/
def KILO_TAB_STOP : Nat := 8

/-- Constant `KILO_QUIT_TIMES` from kilo.c. -/
def KILO_QUIT_TIMES : Nat := 3

/-- The `editorHighlight` enum from kilo.c. -/
inductive Highlight where
  | normal
  | comment
  | keyword1
  | keyword2
  | hstring
  | number
  | hmatch
  deriving DecidableEq, Repr, Inhabited

/-- C `isdigit` for the byte range used by the editor. -/
def isdigit (c : Char) : Bool := '0' ≤ c ∧ c ≤ '9'

/-- C `isspace` (default locale): space, \t, \n, \v, \f, \r. -/
def isspace (c : Char) : Bool :=
  c = ' ' ∨ c = '\t' ∨ c = '\x0a' ∨ c = '\x0b' ∨ c = '\x0c' ∨ c = '\x0d'

/-- C `iscntrl` (ASCII): codes 0–31 and 127. -/
def iscntrl (c : Char) : Bool := c.toNat < 32 ∨ c.toNat = 127

/-- Function `is_separator` from kilo.c: whitespace, the string terminator, or one of
the fixed punctuation characters (comma, period, parens, arithmetic and
comparison operators, brackets, semicolon). -/
def is_separator (c : Char) : Bool :=
  isspace c ∨ c = '\x00' ∨ (",.()+-/*=~%<>[];".data.contains c)

/-- Reading a byte of a NUL-terminated C string: positions past the end of
the stored characters read the terminating `'\x00'`. -/
def charAt (l : List Char) (i : Nat) : Char := l.getD i '\x00'

/-- Function `editorRowCxToRx` from kilo.c: walk the raw columns `0..cx-1`; a tab
advances `rx` to the next multiple of `KILO_TAB_STOP`
(`rx += (KILO_TAB_STOP - 1) - (rx % KILO_TAB_STOP)`), and every character
then advances `rx` by one.  `chars` is the row's raw content; the C loop
reads `row->chars[j]` for `j < cx`, i.e. the first `cx` characters. -/
def editorRowCxToRx (chars : List Char) (cx : Nat) : Nat :=
  (chars.take cx).foldl
    (fun rx c =>
      if c = '\t' then rx + (KILO_TAB_STOP - 1) - (rx % KILO_TAB_STOP) + 1
      else rx + 1)
    0

/-- Loop body of `editorRowRxToCx` from kilo.c.  Note the source assigns
`cur_rx = (KILO_TAB_STOP - 1) - (cur_rx % KILO_TAB_STOP)` on a tab
(an assignment, not the accumulating `+=`); the embedding reproduces that
exactly.  Reaching the end of the row returns `cx` (the fallback
`return cx;` after the loop). -/
def rxToCxLoop : List Char → Nat → Nat → Nat → Nat
  | [], cx, _, _ => cx
  | c :: rest, cx, cur_rx, rx =>
    let cur_rx' :=
      (if c = '\t' then (KILO_TAB_STOP - 1) - (cur_rx % KILO_TAB_STOP)
       else cur_rx) + 1
    if cur_rx' > rx then cx else rxToCxLoop rest (cx + 1) cur_rx' rx

/-- Function `editorRowRxToCx` from kilo.c. -/
def editorRowRxToCx (chars : List Char) (rx : Nat) : Nat :=
  rxToCxLoop chars 0 0 rx

/-- The render-building loop of `editorUpdateRow` from kilo.c: non-tab bytes
are copied; a tab appends one space and then spaces until the length (`idx`)
is a multiple of `KILO_TAB_STOP`.  Appending `KILO_TAB_STOP - len % KILO_TAB_STOP`
spaces is exactly one space followed by padding to the next multiple of the
tab stop. -/
def renderChars (chars : List Char) : List Char :=
  chars.foldl
    (fun acc c =>
      if c = '\t' then acc ++ List.replicate (KILO_TAB_STOP - acc.length % KILO_TAB_STOP) ' '
      else acc ++ [c])
    []

/-- Struct `editorSyntax` from kilo.c.  `singleline_comment_start` may be a
NULL pointer in C, modelled as `none`; keywords keep their trailing `|`
marker for keyword-2 entries, as in the source table. -/
structure EditorSyntax where
  filetype : List Char
  keywords : List (List Char)
  singleline_comment_start : Option (List Char)
  hl_numbers : Bool
  hl_strings : Bool
  deriving DecidableEq, Repr

/-- The `C_HL_extensions`-selected profile: the single `HLDB` entry for C files,
with `CL_HL_keywords` and comment prefix `//`, numbers and strings enabled. -/
def C_syntax : EditorSyntax :=
  { filetype := "c".data
    keywords :=
      ["switch", "if", "while", "for", "break",
       "continue", "return", "else", "struct", "union",
       "typedef", "static", "enum", "class", "case",
       "int|", "long|", "double|", "float|", "char|",
       "unsigned|", "signed|", "void|"].map String.data
    singleline_comment_start := some "//".data
    hl_numbers := true
    hl_strings := true }

/-- Operation `memset(&hl[i], v, n)` on the highlight array: overwrite the `n` entries
starting at index `i` (all of the source's calls stay within bounds). -/
def setRange (hl : List Highlight) (i n : Nat) (v : Highlight) : List Highlight :=
  hl.take i ++ List.replicate n v ++ hl.drop (i + n)

/-- The body of the keyword loop in `editorUpdateSyntax`: test one keyword at
render position `i`.  The last character being `|` marks a keyword-2 and is
stripped (`klen--`).  `strncmp(&render[i], kw, klen) == 0` on NUL-terminated
strings is prefix equality, and `is_separator(render[i + klen])` reads the
terminating NUL when `i + klen` is the end of the row.  Returns the matched
length and the keyword-2 flag. -/
def keywordMatch (render : List Char) (i : Nat) (kw : List Char) : Option (Nat × Bool) :=
  let is_kw2 := charAt kw (kw.length - 1) = '|'
  let klen := if is_kw2 then kw.length - 1 else kw.length
  if (kw.take klen).isPrefixOf (render.drop i) ∧ is_separator (charAt render (i + klen)) then
    some (klen, is_kw2)
  else none

/-- Walk the keyword table in order, as the `for (j = 0; keywords[j]; j++)`
loop does, returning the first match. -/
def findKeyword (kws : List (List Char)) (render : List Char) (i : Nat) :
    Option (Nat × Bool) :=
  match kws with
  | [] => none
  | kw :: rest =>
    match keywordMatch render i kw with
    | some r => some r
    | none => findKeyword rest render i

/-- The `while (i < row->rsize)` loop of `editorUpdateSyntax` from kilo.c.
State carried between iterations: position `i`, `prev_sep`, and `in_string`
(the C `int` holding `0` or the open quote character; `'\x00'` models the
`0`).  `fuel` bounds the iteration count; every step of the source loop
advances `i` by at least one (every keyword in the profile is nonempty), so
`fuel = rsize` steps suffice. -/
def updateSyntaxLoop (syn : EditorSyntax) (render : List Char) :
    Nat → Nat → Bool → Char → List Highlight → List Highlight
  | 0, _, _, _, hl => hl
  | fuel + 1, i, prev_sep, in_string, hl =>
    if i < render.length then
      let c := charAt render i
      let prev_hl := if 0 < i then hl.getD (i - 1) .normal else .normal
      let scs := syn.singleline_comment_start.getD []
      if scs.length ≠ 0 ∧ in_string = '\x00' ∧ scs.isPrefixOf (render.drop i) then
        -- memset the rest of the row to HL_COMMENT, then break
        setRange hl i (render.length - i) .comment
      else if syn.hl_strings ∧ in_string ≠ '\x00' then
        let hl' := hl.set i .hstring
        if c = '\\' ∧ i + 1 < render.length then
          updateSyntaxLoop syn render fuel (i + 2) prev_sep in_string
            (hl'.set (i + 1) .hstring)
        else
          updateSyntaxLoop syn render fuel (i + 1) true
            (if c = in_string then '\x00' else in_string) hl'
      else if syn.hl_strings ∧ (c = '\x22' ∨ c = '\x27') then
        updateSyntaxLoop syn render fuel (i + 1) prev_sep c (hl.set i .hstring)
      else if syn.hl_numbers ∧
          ((isdigit c ∧ (prev_sep ∨ prev_hl = .number)) ∨
           (c = '.' ∧ prev_hl = .number)) then
        updateSyntaxLoop syn render fuel (i + 1) false in_string (hl.set i .number)
      else
        match (if prev_sep then findKeyword syn.keywords render i else none) with
        | some (klen, kw2) =>
          updateSyntaxLoop syn render fuel (i + klen) false in_string
            (setRange hl i klen (if kw2 then .keyword2 else .keyword1))
        | none =>
          updateSyntaxLoop syn render fuel (i + 1) (is_separator c) in_string hl
    else hl

/-- Function `editorUpdateSyntax` from kilo.c: reallocate the highlight array to the
render size, fill it with `HL_NORMAL`, return immediately when no syntax
profile is selected, and otherwise run the classification loop with
`prev_sep = 1` and `in_string = 0`. -/
def editorUpdateSyntax (syn : Option EditorSyntax) (render : List Char) :
    List Highlight :=
  let hl := List.replicate render.length Highlight.normal
  match syn with
  | none => hl
  | some s => updateSyntaxLoop s render render.length 0 true '\x00' hl

/-- The `erow` struct from kilo.c.  `size` and `rsize` are the lengths of
`chars` and `render`. -/
structure Erow where
  chars : List Char
  render : List Char
  hl : List Highlight
  deriving DecidableEq, Repr, Inhabited

/-- Function `editorUpdateRow` from kilo.c: rebuild the render string from the raw
content and refresh the highlight array via `editorUpdateSyntax`. -/
def editorUpdateRow (syn : Option EditorSyntax) (chars : List Char) : Erow :=
  let render := renderChars chars
  { chars := chars, render := render, hl := editorUpdateSyntax syn render }

/-- Function `editorSyntaxToColor` from kilo.c (the `switch` returning an ANSI color
number; the default case, including `HL_NORMAL`, is white `37`). -/
def editorSyntaxToColor (hl : Highlight) : Int :=
  match hl with
  | .comment => 36
  | .keyword1 => 32
  | .keyword2 => 33
  | .hstring => 35
  | .number => 31
  | .hmatch => 34
  | .normal => 37

/-! Row and document mutation operations -/

/-- Function `editorRowInsertChar` from kilo.c: an out-of-range `at` (negative or past
the end) is clamped to the row size; the character is spliced in and the row
refreshed; `E.dirty++`. -/
def editorRowInsertChar (syn : Option EditorSyntax) (row : Erow) (at_ : Int)
    (c : Char) (dirty : Nat) : Erow × Nat :=
  let at2 : Nat :=
    if at_ < 0 ∨ at_ > (row.chars.length : Int) then row.chars.length else at_.toNat
  (editorUpdateRow syn (row.chars.take at2 ++ c :: row.chars.drop at2), dirty + 1)

/-- Function `editorRowAppendString` from kilo.c: concatenate `s` onto the row's raw
content, refresh the row, `E.dirty++`. -/
def editorRowAppendString (syn : Option EditorSyntax) (row : Erow)
    (s : List Char) (dirty : Nat) : Erow × Nat :=
  (editorUpdateRow syn (row.chars ++ s), dirty + 1)

/-- Function `editorRowDelChar` from kilo.c: `at` outside `[0, size]` returns without
change.  Otherwise the `memmove` shifts `chars[at+1..size]` down one position
and `size` is decremented; with `at = size` the move copies nothing and the
decrement drops the last character, which the trailing `take (size - 1)`
reproduces. -/
def editorRowDelChar (syn : Option EditorSyntax) (row : Erow) (at_ : Int)
    (dirty : Nat) : Erow × Nat :=
  if at_ < 0 ∨ at_ > (row.chars.length : Int) then (row, dirty)
  else
    let at2 := at_.toNat
    (editorUpdateRow syn
      ((row.chars.take at2 ++ row.chars.drop (at2 + 1)).take (row.chars.length - 1)),
     dirty + 1)

/-- Function `editorInsertRow` from kilo.c on the document's row list: guard
`at < 0 || at > E.numrows`, build the new row with `editorUpdateRow`,
`E.numrows++`, `E.dirty++`. -/
def editorInsertRow (syn : Option EditorSyntax) (rows : List Erow) (dirty : Nat)
    (at_ : Int) (s : List Char) : List Erow × Nat :=
  if at_ < 0 ∨ at_ > (rows.length : Int) then (rows, dirty)
  else
    let at2 := at_.toNat
    (rows.take at2 ++ editorUpdateRow syn s :: rows.drop at2, dirty + 1)

/-- Function `editorDelRow` from kilo.c: guard `at < 0 || at >= E.numrows`, shift the
following rows down, `E.numrows--`, `E.dirty++`. -/
def editorDelRow (rows : List Erow) (dirty : Nat) (at_ : Int) : List Erow × Nat :=
  if at_ < 0 ∨ at_ ≥ (rows.length : Int) then (rows, dirty)
  else (rows.take at_.toNat ++ rows.drop (at_.toNat + 1), dirty + 1)

/-- The document-plus-cursor state used by the editing operations:
`E.row`/`E.numrows`, `E.dirty`, `E.cy`, `E.cx`. -/
structure EState where
  rows : List Erow
  dirty : Nat
  cy : Nat
  cx : Nat
  deriving DecidableEq, Repr

/-- Function `editorInsertNewline` from kilo.c.  At `cx = 0` an empty row is inserted
above; otherwise the tail from the cursor becomes a new row below and the
current row is truncated at the cursor (`row->size = E.cx`) and refreshed.
The cursor moves to the start of the next line. -/
def editorInsertNewline (syn : Option EditorSyntax) (s : EState) : EState :=
  if s.cx = 0 then
    let (rows', dirty') := editorInsertRow syn s.rows s.dirty (s.cy : Int) []
    { rows := rows', dirty := dirty', cy := s.cy + 1, cx := 0 }
  else
    let row := s.rows.getD s.cy default
    let (rows', dirty') :=
      editorInsertRow syn s.rows s.dirty ((s.cy : Int) + 1) (row.chars.drop s.cx)
    let rows'' := rows'.set s.cy (editorUpdateRow syn (row.chars.take s.cx))
    { rows := rows'', dirty := dirty', cy := s.cy + 1, cx := 0 }

/-- Function `editorDelChar` from kilo.c: no-op one past the last row or at the very
start of the document; within a row it deletes the character left of the
cursor; at column 0 it appends the row onto the previous one (`E.cx` is set
to the previous row's old size first), deletes the row, and moves up. -/
def editorDelChar (syn : Option EditorSyntax) (s : EState) : EState :=
  if s.cy = s.rows.length then s
  else if s.cx = 0 ∧ s.cy = 0 then s
  else
    let row := s.rows.getD s.cy default
    if 0 < s.cx then
      let (row', dirty') := editorRowDelChar syn row ((s.cx : Int) - 1) s.dirty
      { rows := s.rows.set s.cy row', dirty := dirty', cy := s.cy, cx := s.cx - 1 }
    else
      let prev := s.rows.getD (s.cy - 1) default
      let cx' := prev.chars.length
      let (prev', dirty') := editorRowAppendString syn prev row.chars s.dirty
      let rows' := s.rows.set (s.cy - 1) prev'
      let (rows'', dirty'') := editorDelRow rows' dirty' (s.cy : Int)
      { rows := rows'', dirty := dirty'', cy := s.cy - 1, cx := cx' }

/-! Viewport scrolling -/

/-- The fields of `struct editorConfig` read and written by `editorScroll`.
The offsets are kept as `Int` because the search controller stores values
past the end of range (`E.rowoff = E.numrows`). -/
structure ScrollState where
  cy : Int
  cx : Int
  rx : Int
  rowoff : Int
  coloff : Int
  screenrows : Int
  screencols : Int
  rows : List Erow
  deriving DecidableEq, Repr

/-- Function `editorScroll` from kilo.c: recompute `rx` (0 one past the last row),
then pull `rowoff`/`coloff` toward the cursor with the four adjustments. -/
def editorScroll (s : ScrollState) : ScrollState :=
  let rx : Int :=
    if s.cy < (s.rows.length : Int) then
      (editorRowCxToRx (s.rows.getD s.cy.toNat default).chars s.cx.toNat : Int)
    else 0
  let rowoff1 := if s.cy < s.rowoff then s.cy else s.rowoff
  let rowoff2 :=
    if s.cy ≥ rowoff1 + s.screenrows then s.cy - s.screenrows + 1 else rowoff1
  let coloff1 := if rx < s.coloff then rx else s.coloff
  let coloff2 :=
    if rx ≥ coloff1 + s.screencols then rx - s.screencols + 1 else coloff1
  { s with rx := rx, rowoff := rowoff2, coloff := coloff2 }

/-! Cursor movement -/

/-- The arrow keys consumed by `editorMoveCursor`. -/
inductive Akey where
  | arrowLeft
  | arrowRight
  | arrowUp
  | arrowDown
  deriving DecidableEq, Repr

/-- The fields of `struct editorConfig` used by `editorMoveCursor`. -/
structure MState where
  rows : List Erow
  cy : Nat
  cx : Nat
  deriving DecidableEq, Repr

/-- Function `editorMoveCursor` from kilo.c.  The source computes
`row = (E.cy > E.numrows) ? NULL : &E.row[E.cy]` — note the strict `>`, so at
`cy = numrows` the pointer aims one past the allocated row array (the model
assumes `E.row` is a real allocation, i.e. at least one row was ever
inserted).  Dereferences are modelled with `List.get?`: an index at or past
`numrows` is an out-of-bounds read and makes the whole call return `none`.
The final clause re-reads the row with the `>=` guard and snaps `cx` to the
row length (`0` past the end). -/
def editorMoveCursor (s : MState) (key : Akey) : Option MState := do
  let rowPtr : Option Nat := if s.cy > s.rows.length then none else some s.cy
  let s1 ←
    match key with
    | .arrowLeft =>
      if 0 < s.cx then pure { s with cx := s.cx - 1 }
      else if 0 < s.cy then do
        let r ← s.rows.get? (s.cy - 1)
        pure { s with cy := s.cy - 1, cx := r.chars.length }
      else pure s
    | .arrowDown =>
      if s.cy < s.rows.length then pure { s with cy := s.cy + 1 } else pure s
    | .arrowRight =>
      match rowPtr with
      | none => pure s
      | some i => do
        let r ← s.rows.get? i
        if s.cx < r.chars.length then pure { s with cx := s.cx + 1 }
        else if s.cx = r.chars.length then pure { s with cy := s.cy + 1, cx := 0 }
        else pure s
    | .arrowUp =>
      if 0 < s.cy then pure { s with cy := s.cy - 1 } else pure s
  let rowlen :=
    match s1.rows.get? s1.cy with
    | some r => r.chars.length
    | none => 0
  pure (if s1.cx > rowlen then { s1 with cx := rowlen } else s1)

/-! Incremental search -/

/-- C `strstr(hay, pat)` as the offset of the first occurrence of `pat`. -/
def strstrIdx : List Char → List Char → Option Nat
  | [], pat => if pat.isPrefixOf ([] : List Char) then some 0 else none
  | c :: t, pat =>
    if pat.isPrefixOf (c :: t) then some 0 else (strstrIdx t pat).map (· + 1)

/-- The static state `editorFindCallback` keeps across invocations:
`last_match`, `direction`, and the saved highlight overlay
(`saved_hl_line`, `saved_hl`). -/
structure FindState where
  last_match : Int
  direction : Int
  saved : Option (Nat × List Highlight)
  deriving DecidableEq, Repr

/-- The editor fields the find callback touches. -/
structure FDoc where
  rows : List Erow
  cy : Nat
  cx : Nat
  rowoff : Nat
  deriving DecidableEq, Repr

/-- The keys the find callback distinguishes. -/
inductive FKey where
  | enter
  | esc
  | arrowRight
  | arrowDown
  | arrowLeft
  | arrowUp
  | other
  deriving DecidableEq, Repr

/-- The `for (i = 0; i < E.numrows; i++)` scan of `editorFindCallback`: step
`current` by `direction`, wrap `-1` to `numrows - 1` and `numrows` to `0`,
and stop at the first row whose render string contains the query.  Returns
the matched row index and the render offset of the match. -/
def findScanLoop (rows : List Erow) (query : List Char) (direction : Int) :
    Nat → Int → Option (Nat × Nat)
  | 0, _ => none
  | n + 1, current =>
    let cur1 := current + direction
    let cur2 : Int :=
      if cur1 = -1 then (rows.length : Int) - 1
      else if cur1 = (rows.length : Int) then 0
      else cur1
    match strstrIdx (rows.getD cur2.toNat default).render query with
    | some off => some (cur2.toNat, off)
    | none => findScanLoop rows query direction n cur2

/-- Function `editorFindCallback` from kilo.c: restore any saved highlight overlay;
Enter/Escape reset the search state and return; arrows pick the direction;
any other key restarts the search (`last_match = -1`, forward).  Then scan
with wrap-around; on a hit move the cursor there (`E.cx` via
`editorRowRxToCx`), set `E.rowoff = E.numrows`, save the row's highlight
array and overlay the matched span with `HL_MATCH`. -/
def editorFindCallback (query : List Char) (key : FKey) (fs : FindState)
    (d : FDoc) : FindState × FDoc :=
  let rows0 :=
    match fs.saved with
    | some (line, hl) => d.rows.set line { d.rows.getD line default with hl := hl }
    | none => d.rows
  match key with
  | .enter => (⟨-1, 1, none⟩, { d with rows := rows0 })
  | .esc => (⟨-1, 1, none⟩, { d with rows := rows0 })
  | _ =>
    let (lm1, dir1) : Int × Int :=
      match key with
      | .arrowRight => (fs.last_match, 1)
      | .arrowDown => (fs.last_match, 1)
      | .arrowLeft => (fs.last_match, -1)
      | .arrowUp => (fs.last_match, -1)
      | _ => (-1, 1)
    let dir2 := if lm1 = -1 then 1 else dir1
    match findScanLoop rows0 query dir2 rows0.length lm1 with
    | none => (⟨lm1, dir2, none⟩, { d with rows := rows0 })
    | some (cur, off) =>
      let row := rows0.getD cur default
      let rows1 :=
        rows0.set cur { row with hl := setRange row.hl off query.length .hmatch }
      (⟨(cur : Int), dir2, some (cur, row.hl)⟩,
       { rows := rows1, cy := cur, cx := editorRowRxToCx row.chars off,
         rowoff := rows0.length })

/-! Key processing and quitting -/

/-- Transient status messages the modelled operations emit
(`editorSetStatusMessage` calls). -/
inductive Msg where
  | warnQuit (remaining : Nat)
  | saveCancelled
  | bytesWritten (n : Nat)
  | saveError
  deriving DecidableEq, Repr

/-- Function `editorRowsToString` from kilo.c: every row's raw bytes followed by a
newline. -/
def editorRowsToString (rows : List Erow) : List Char :=
  rows.foldl (fun acc r => acc ++ r.chars ++ ['\x0a']) []

/-- The editor fields driving the quit/save flow:
`E.dirty`, the static `quit_times`, `E.filename`, and the rows (for the save
serialization). -/
structure KState where
  rows : List Erow
  dirty : Nat
  quit_times : Nat
  filename : Option (List Char)
  deriving DecidableEq, Repr

/-- The open/truncate/write tail of `editorSave`: on success the dirty flag
is cleared and the byte count reported; on an I/O failure the state is kept
and the error reported.  `ioOk` stands for the file-descriptor operations
succeeding. -/
def editorSaveWrite (ioOk : Bool) (s : KState) : KState × List Msg :=
  let buf := editorRowsToString s.rows
  if ioOk then ({ s with dirty := 0 }, [.bytesWritten buf.length])
  else (s, [.saveError])

/-- Function `editorSave` from kilo.c: with no filename, prompt for one
(`promptRes` stands for the prompt's return value); a cancelled prompt
reports "Save cancelled" and leaves the state unchanged.  (The
`editorSelectSyntaxHighlight` re-selection after naming the file does not
touch the fields modelled here.) -/
def editorSave (promptRes : Option (List Char)) (ioOk : Bool) (s : KState) :
    KState × List Msg :=
  match s.filename with
  | none =>
    match promptRes with
    | none => (s, [.saveCancelled])
    | some name => editorSaveWrite ioOk { s with filename := some name }
  | some _ => editorSaveWrite ioOk s

/-- The keys relevant to the quit/save flow of `editorProcessKeyPress`:
Ctrl+Q, Ctrl+S (with the environment's prompt answer and I/O outcome), and
any key handled by a branch that falls through to the closing
`quit_times = KILO_QUIT_TIMES` reset (e.g. an arrow key). -/
inductive PKey where
  | ctrlQ
  | ctrlS (promptRes : Option (List Char)) (ioOk : Bool)
  | otherKey
  deriving DecidableEq, Repr

/-- Result of one `editorProcessKeyPress` call: either the editor continues
with a new state, or the process exits; either way with the status messages
set during the call. -/
inductive StepResult where
  | cont (s : KState) (msgs : List Msg)
  | exited (msgs : List Msg)
  deriving DecidableEq, Repr

/-- The quit/save portion of `editorProcessKeyPress` from kilo.c.  Ctrl+Q
with a dirty buffer and a positive counter warns (printing the counter's
current value), decrements, and returns early — skipping the reset at the
bottom of the function; otherwise it exits.  Every other modelled key
reaches the closing `quit_times = KILO_QUIT_TIMES`. -/
def editorProcessKeyPress (s : KState) (k : PKey) : StepResult :=
  match k with
  | .ctrlQ =>
    if s.dirty ≠ 0 ∧ 0 < s.quit_times then
      .cont { s with quit_times := s.quit_times - 1 } [.warnQuit s.quit_times]
    else .exited []
  | .ctrlS pr ok =>
    let (s', msgs) := editorSave pr ok s
    .cont { s' with quit_times := KILO_QUIT_TIMES } msgs
  | .otherKey => .cont { s with quit_times := KILO_QUIT_TIMES } []

/-- Run a sequence of key presses through `editorProcessKeyPress`,
collecting the emitted messages; `none` means the process exited. -/
def runKeys (s : KState) : List PKey → Option KState × List Msg
  | [] => (some s, [])
  | k :: rest =>
    match editorProcessKeyPress s k with
    | .exited msgs => (none, msgs)
    | .cont s' msgs =>
      let (r, ms) := runKeys s' rest
      (r, msgs ++ ms)

/-! Screen composition: the colored text of one visible row -/

/-- The per-character loop of `editorDrawRows` over a visible row slice,
with `current_color` threaded through (`-1` = no color active).  A control
character is drawn as an inverted glyph and the active color re-applied —
the source's `snprintf(buf, sizeof(buf), "\x1b[%dm]", current_color)`
(with its trailing `]`) is reproduced exactly.  A `HL_NORMAL` character
resets the foreground with `ESC[39m` when a color is active; any other
category switches color only when it differs from the active one. -/
def drawRowLoop : List (Char × Highlight) → Int → List Char
  | [], _ => []
  | (c, h) :: rest, cc =>
    if iscntrl c then
      let sym := if c.toNat ≤ 26 then Char.ofNat ('@'.toNat + c.toNat) else '?'
      "\x1b[7m".data ++ [sym] ++ "\x1b[m".data ++
        (if cc ≠ -1 then '\x1b' :: '[' :: (toString cc).data ++ ['m', ']'] else []) ++
        drawRowLoop rest cc
    else if h = .normal then
      (if cc ≠ -1 then "\x1b[39m".data else []) ++ [c] ++ drawRowLoop rest (-1)
    else
      let color := editorSyntaxToColor h
      (if color ≠ cc then '\x1b' :: '[' :: (toString color).data ++ ['m'] else []) ++
        [c] ++ drawRowLoop rest color

/-- The colored-text bytes `editorDrawRows` emits for one visible row slice
(`c`/`hl` clipped to the viewport), including the unconditional `ESC[39m`
reset after the loop. -/
def editorDrawRowText (cs : List Char) (hls : List Highlight) : List Char :=
  drawRowLoop (cs.zip hls) (-1) ++ "\x1b[39m".data

/-- Consistency of a row's derived fields with its raw content: the render
string and the highlight array are the ones `editorUpdateRow` /
`editorUpdateSyntax` would produce from the current `chars`. -/
def rowConsistent (syn : Option EditorSyntax) (r : Erow) : Prop :=
  r.render = renderChars r.chars ∧ r.hl = editorUpdateSyntax syn r.render

/-- Re-running the highlighter on a row in place, as
`editorUpdateSyntax(&E.row[i])` does: only the highlight array changes. -/
def editorUpdateSyntaxRow (syn : Option EditorSyntax) (r : Erow) : Erow :=
  { r with hl := editorUpdateSyntax syn r.render }

/-- A concrete scroll state used as a witness: one row, a 24×80 window, and
offsets far out of range. -/
def scrollW : ScrollState :=
  { cy := 0, cx := 0, rx := 0, rowoff := 100, coloff := 50,
    screenrows := 24, screencols := 80,
    rows := [⟨"a".data, "a".data, [Highlight.normal]⟩] }

/-- A concrete three-row document used as a search witness: the query
`"needle"` occurs only in row 0. -/
def findW : List Erow :=
  [⟨"needle here".data, "needle here".data, List.replicate 11 Highlight.normal⟩,
   ⟨"nothing".data, "nothing".data, List.replicate 7 Highlight.normal⟩,
   ⟨"zzz".data, "zzz".data, List.replicate 3 Highlight.normal⟩]

/-! Helper lemmas about list surgery at a decomposed position. -/

theorem getD_append_cons {α : Type _} (A : List α) (r : α) (B : List α) (d : α) :
    (A ++ r :: B).getD A.length d = r := by
  induction A with
  | nil => rfl
  | cons a A ih => simpa using ih

theorem set_append_cons {α : Type _} (A : List α) (r v : α) (B : List α) :
    (A ++ r :: B).set A.length v = A ++ v :: B := by
  induction A with
  | nil => rfl
  | cons a A ih => simp [ih]

theorem take_append_cons {α : Type _} (A : List α) (r : α) (B : List α) :
    (A ++ r :: B).take A.length = A := by
  induction A with
  | nil => rfl
  | cons a A ih => simp [ih]

theorem drop_append_cons {α : Type _} (A : List α) (r : α) (B : List α) :
    (A ++ r :: B).drop (A.length + 1) = B := by
  induction A with
  | nil => rfl
  | cons a A ih => simp [ih]

/-- Every freshly rebuilt row is consistent. -/
theorem rowConsistent_editorUpdateRow (syn : Option EditorSyntax) (cs : List Char) :
    rowConsistent syn (editorUpdateRow syn cs) :=
  ⟨rfl, rfl⟩

/-- Each step of the render-building fold grows the accumulator by at least
one character (a tab contributes `KILO_TAB_STOP - len % KILO_TAB_STOP ≥ 1`
spaces), so the fold adds at least one output character per input
character. -/
theorem renderFoldl_length (cs : List Char) : ∀ acc : List Char,
    acc.length + cs.length ≤
      (cs.foldl
        (fun acc c =>
          if c = '\t' then
            acc ++ List.replicate (KILO_TAB_STOP - acc.length % KILO_TAB_STOP) ' '
          else acc ++ [c])
        acc).length := by
  induction cs with
  | nil => intro acc; simp
  | cons c cs ih =>
    intro acc
    have ih' := ih
      (if c = '\t' then
        acc ++ List.replicate (KILO_TAB_STOP - acc.length % KILO_TAB_STOP) ' '
       else acc ++ [c])
    have hstep : acc.length + 1 ≤
        (if c = '\t' then
          acc ++ List.replicate (KILO_TAB_STOP - acc.length % KILO_TAB_STOP) ' '
         else acc ++ [c]).length := by
      by_cases hc : c = '\t'
      · simp only [hc, if_pos, List.length_append, List.length_replicate, KILO_TAB_STOP]
        omega
      · simp [hc]
    simp only [List.foldl_cons, List.length_cons]
    omega

/-- The arithmetic core of `editorScroll`: after the two sequential
adjustments of an offset against a cursor position and a window extent of at
least one, the position lies inside the window, for any starting offset. -/
theorem scroll_adjust (cy off sr : Int) (h : 1 ≤ sr) :
    (if cy ≥ (if cy < off then cy else off) + sr then cy - sr + 1
     else (if cy < off then cy else off)) ≤ cy ∧
    cy < (if cy ≥ (if cy < off then cy else off) + sr then cy - sr + 1
          else (if cy < off then cy else off)) + sr := by
  split_ifs <;> omega

/-- C3: the render string copies non-tab bytes unchanged, expands each tab
into spaces up to the next multiple of the tab stop 8, and is never shorter
than the raw content; the row `"hello\tworld"` renders as
`"hello   world"` (the tab became 3 spaces, so the render is 2 longer than
the raw content) and `editorRowCxToRx` at `cx = 6` is 8. -/
theorem c3_render_tab_expansion :
    (∀ cs : List Char, cs.length ≤ (renderChars cs).length) ∧
    (∀ (cs : List Char) (c : Char), c ≠ '\t' →
        renderChars (cs ++ [c]) = renderChars cs ++ [c]) ∧
    (∀ cs : List Char,
        renderChars (cs ++ ['\t']) =
          renderChars cs ++
            List.replicate
              (KILO_TAB_STOP - (renderChars cs).length % KILO_TAB_STOP) ' ') ∧
    renderChars "hello\tworld".data = "hello   world".data ∧
    "hello   world".data.length = "hello\tworld".data.length + 2 ∧
    editorRowCxToRx "hello\tworld".data 6 = 8 := by
  refine ⟨?_, ?_, ?_, by decide, by decide, by decide⟩
  · intro cs
    simpa using renderFoldl_length cs []
  · intro cs c hc
    simp [renderChars, List.foldl_append, hc]
  · intro cs
    simp [renderChars, List.foldl_append]

/-- Witness for C3: instantiate the non-tab conjunct at row `"ab"` and the
character `x`. -/
theorem c3_render_tab_expansion_witness :
    ('x' ≠ '\t') ∧ renderChars ("ab".data ++ ['x']) = renderChars "ab".data ++ ['x'] :=
  ⟨by decide, c3_render_tab_expansion.2.1 "ab".data 'x' (by decide)⟩

/-- C5: after `editorScroll`, on a non-empty document with a usable window,
the cursor row lies in `[rowoff, rowoff + screenrows)` and the render column
lies in `[coloff, coloff + screencols)`, for any prior offsets — including
the out-of-range `rowoff = numrows` the search controller stores. -/
theorem c5_scroll_invariant (s : ScrollState) (_hrows : 0 < s.rows.length)
    (hsr : 1 ≤ s.screenrows) (hsc : 1 ≤ s.screencols) :
    (editorScroll s).rowoff ≤ (editorScroll s).cy ∧
    (editorScroll s).cy < (editorScroll s).rowoff + (editorScroll s).screenrows ∧
    (editorScroll s).coloff ≤ (editorScroll s).rx ∧
    (editorScroll s).rx < (editorScroll s).coloff + (editorScroll s).screencols := by
  have h1 := scroll_adjust s.cy s.rowoff s.screenrows hsr
  have h2 := scroll_adjust
    (if s.cy < (s.rows.length : Int) then
      ((editorRowCxToRx (s.rows.getD s.cy.toNat default).chars s.cx.toNat : Nat) : Int)
     else 0)
    s.coloff s.screencols hsc
  exact ⟨h1.1, h1.2, h2.1, h2.2⟩

/-- Witness for C5: a one-row document, a 24×80 window, and offsets far out
of range. -/
theorem c5_scroll_invariant_witness :
    0 < (scrollW.rows).length ∧ 1 ≤ scrollW.screenrows ∧ 1 ≤ scrollW.screencols ∧
    ((editorScroll scrollW).rowoff ≤ (editorScroll scrollW).cy ∧
     (editorScroll scrollW).cy <
       (editorScroll scrollW).rowoff + (editorScroll scrollW).screenrows ∧
     (editorScroll scrollW).coloff ≤ (editorScroll scrollW).rx ∧
     (editorScroll scrollW).rx <
       (editorScroll scrollW).coloff + (editorScroll scrollW).screencols) :=
  ⟨by decide, by decide, by decide,
   c5_scroll_invariant scrollW (by decide) (by decide) (by decide)⟩

/-- C1: the spec claims `editorRowRxToCx (r, editorRowCxToRx (r, cx)) = cx`
for every `0 ≤ cx ≤ r.size`.  On the row `"a\tb"` at `cx = 2` the forward
map gives render column 8, but the inverse walk — whose tab case assigns
`cur_rx = (KILO_TAB_STOP - 1) - (cur_rx % KILO_TAB_STOP)` instead of
accumulating with `+=` — returns 3, not 2. -/
theorem c1_roundtrip_fails_eval :
    2 ≤ "a\tb".data.length ∧
    editorRowCxToRx "a\tb".data 2 = 8 ∧
    editorRowRxToCx "a\tb".data (editorRowCxToRx "a\tb".data 2) = 3 := by
  refine ⟨by decide, by decide, by decide⟩

/-- C6: the per-row highlighter output depends only on the row's render
string and the syntax profile — rows with equal render content get equal
highlight arrays regardless of their previous highlight state — and
re-running it on an unchanged row is idempotent. -/
theorem c6_highlighter_pure (syn : Option EditorSyntax) (r1 r2 : Erow)
    (h : r1.render = r2.render) :
    (editorUpdateSyntaxRow syn r1).hl = (editorUpdateSyntaxRow syn r2).hl ∧
    editorUpdateSyntaxRow syn (editorUpdateSyntaxRow syn r1) =
      editorUpdateSyntaxRow syn r1 := by
  constructor
  · simp only [ editorUpdateSyntaxRow, h]
  · rfl

/-- Witness for C6: two rows with render `"1"` but different stale highlight
arrays are mapped to the same (number-tagged) highlight array. -/
theorem c6_highlighter_pure_witness :
    (⟨"1".data, "1".data, [Highlight.normal]⟩ : Erow).render =
      (⟨"1".data, "1".data, [Highlight.number]⟩ : Erow).render ∧
    (editorUpdateSyntaxRow (some C_syntax)
        ⟨"1".data, "1".data, [Highlight.normal]⟩).hl =
      (editorUpdateSyntaxRow (some C_syntax)
        ⟨"1".data, "1".data, [Highlight.number]⟩).hl :=
  ⟨rfl,
   (c6_highlighter_pure (some C_syntax)
      ⟨"1".data, "1".data, [Highlight.normal]⟩
      ⟨"1".data, "1".data, [Highlight.number]⟩ rfl).1⟩

/-- C9: the colored-text bytes emitted for the visible row `"1?1"` (where
`?` is the control byte 0x01) with highlights `[number, normal, normal]`.
After the inverted glyph `ESC[7m A ESC[m`, the re-established color escape
is `ESC[31m]` — the `snprintf` format string `"\x1b[%dm]"` in
`editorDrawRows` appends a stray `]` byte after the terminating `m`, so the
emitted sequence is not of the bit-exact form `ESC[<n>m` with no trailing
bytes that the claim states. -/
theorem c9_stray_bracket_eval :
    editorDrawRowText ['1', '\x01', '1']
        [Highlight.number, Highlight.normal, Highlight.normal] =
      "\x1b[31m1\x1b[7mA\x1b[m\x1b[31m]\x1b[39m1\x1b[39m".data := by
  decide

/-- C10: with one row and the cursor at the append position `cy = numrows =
1`, the source's pointer guard `(E.cy > E.numrows) ? NULL : &E.row[E.cy]`
(strict `>`) yields a non-NULL pointer one past the row array, and
`ARROW_RIGHT` reads `row->size` out of bounds — modelled as the call
returning `none` — contradicting the claim that no row is dereferenced when
`cy = numrows`. -/
theorem c10_oob_read_eval :
    editorMoveCursor
        { rows := [⟨"a".data, "a".data, [Highlight.normal]⟩], cy := 1, cx := 0 }
        Akey.arrowRight = none := by
  decide

/-- C2 counterexample: on a dirty, never-saved buffer with the counter at the
default threshold `KILO_QUIT_TIMES = 3`, pressing Ctrl+Q three times emits
THREE warning messages and the editor has NOT exited (a fourth press is
required), not the two-warnings-then-exit the claim states. -/
theorem c2_counterexample :
    runKeys { rows := [], dirty := 1, quit_times := KILO_QUIT_TIMES, filename := none }
        [PKey.ctrlQ, PKey.ctrlQ, PKey.ctrlQ] =
      (some { rows := [], dirty := 1, quit_times := 0, filename := none },
       [Msg.warnQuit 3, Msg.warnQuit 2, Msg.warnQuit 1]) := by
  decide

/-- C2 (amended): starting from a dirty, never-saved buffer with the quit
counter at its default threshold, pressing Ctrl+Q FOUR times produces
exactly THREE warning status messages and then exits; Ctrl+S with a
successful save-as prompt clears the dirty flag (and resets the counter);
and any key other than Ctrl+Q resets the quit counter to the threshold. -/
theorem c2_quit_flow :
    (∀ (rows : List Erow) (fn : Option (List Char)) (dirty : Nat), dirty ≠ 0 →
        runKeys { rows := rows, dirty := dirty, quit_times := KILO_QUIT_TIMES,
                  filename := fn }
            [PKey.ctrlQ, PKey.ctrlQ, PKey.ctrlQ, PKey.ctrlQ] =
          (none, [Msg.warnQuit 3, Msg.warnQuit 2, Msg.warnQuit 1])) ∧
    (∀ (s : KState) (name : List Char), s.filename = none →
        editorProcessKeyPress s (PKey.ctrlS (some name) true) =
          StepResult.cont
            { s with dirty := 0, quit_times := KILO_QUIT_TIMES,
                     filename := some name }
            [Msg.bytesWritten (editorRowsToString s.rows).length]) ∧
    (∀ s : KState,
        editorProcessKeyPress s PKey.otherKey =
          StepResult.cont { s with quit_times := KILO_QUIT_TIMES } []) := by
  refine ⟨?_, ?_, ?_⟩
  · intro rows fn dirty hd
    simp [runKeys, editorProcessKeyPress, KILO_QUIT_TIMES, hd]
  · intro s name h
    simp [editorProcessKeyPress, editorSave, editorSaveWrite, h]
  · intro s
    rfl

/-- Witness for C2: the four-press run on a concrete dirty buffer, and a
concrete Ctrl+S save on an unnamed buffer. -/
theorem c2_quit_flow_witness :
    ((1 : Nat) ≠ 0 ∧
     runKeys { rows := [], dirty := 1, quit_times := KILO_QUIT_TIMES,
               filename := none }
         [PKey.ctrlQ, PKey.ctrlQ, PKey.ctrlQ, PKey.ctrlQ] =
       (none, [Msg.warnQuit 3, Msg.warnQuit 2, Msg.warnQuit 1])) ∧
    (({ rows := [], dirty := 5, quit_times := 2, filename := none } : KState).filename =
       none ∧
     editorProcessKeyPress
         ({ rows := [], dirty := 5, quit_times := 2, filename := none } : KState)
         (PKey.ctrlS (some "f.c".data) true) =
       StepResult.cont
         { rows := [], dirty := 0, quit_times := KILO_QUIT_TIMES,
           filename := some "f.c".data }
         [Msg.bytesWritten 0]) :=
  ⟨⟨by decide, c2_quit_flow.1 [] none 1 (by decide)⟩,
   ⟨rfl, c2_quit_flow.2.1
      { rows := [], dirty := 5, quit_times := 2, filename := none } "f.c".data rfl⟩⟩

theorem getD_append_cons_succ {α : Type _} (A : List α) (x y : α) (B : List α)
    (d : α) : (A ++ x :: y :: B).getD (A.length + 1) d = y := by
  induction A with
  | nil => rfl
  | cons a A ih => simpa using ih

theorem set_append_cons_succ {α : Type _} (A : List α) (x y v : α) (B : List α) :
    (A ++ x :: y :: B).set (A.length + 1) v = A ++ x :: v :: B := by
  induction A with
  | nil => rfl
  | cons a A ih => simpa using ih

theorem take_append_cons_succ {α : Type _} (A : List α) (x : α) (B : List α) :
    (A ++ x :: B).take (A.length + 1) = A ++ [x] := by
  induction A with
  | nil => rfl
  | cons a A ih => simp [ih]

theorem drop_append_cons2 {α : Type _} (A : List α) (x y : α) (B : List α) :
    (A ++ x :: y :: B).drop (A.length + 2) = B := by
  induction A with
  | nil => rfl
  | cons a A ih => simpa using ih

/-- Computation of `editorInsertRow` at a valid position, with the position
given by a decomposition of the row list. -/
theorem editorInsertRow_eq (syn : Option EditorSyntax) (A B : List Erow)
    (s : List Char) (dirty : Nat) :
    editorInsertRow syn (A ++ B) dirty (A.length : Int) s =
      (A ++ editorUpdateRow syn s :: B, dirty + 1) := by
  have hg : ¬((A.length : Int) < 0 ∨ (A.length : Int) > ((A ++ B).length : Int)) := by
    simp only [List.length_append]
    push_cast
    omega
  simp [editorInsertRow, hg, List.take_left, List.drop_left]

/-- Computation of `editorInsertNewline` in the splitting case `cx ≠ 0`: the
row at the cursor is truncated at `cx` and the tail inserted below, both
freshly rebuilt; `E.dirty` grows by one (via `editorInsertRow`). -/
theorem editorInsertNewline_eq (syn : Option EditorSyntax) (A B : List Erow)
    (r : Erow) (dirty cx : Nat) (hcx : cx ≠ 0) :
    editorInsertNewline syn ⟨A ++ r :: B, dirty, A.length, cx⟩ =
      ⟨A ++ editorUpdateRow syn (r.chars.take cx) ::
          editorUpdateRow syn (r.chars.drop cx) :: B,
       dirty + 1, A.length + 1, 0⟩ := by
  have hrow : (A ++ r :: B).getD A.length default = r := getD_append_cons A r B default
  have hins :
      editorInsertRow syn (A ++ r :: B) dirty ((A.length : Int) + 1)
          (r.chars.drop cx) =
        (A ++ r :: editorUpdateRow syn (r.chars.drop cx) :: B, dirty + 1) := by
    have h1 : ((A.length : Int) + 1) = (((A ++ [r]).length : Nat) : Int) := by
      simp
    have h2 : A ++ r :: B = (A ++ [r]) ++ B := by simp
    rw [h2, h1, editorInsertRow_eq]
    simp
  simp only [editorInsertNewline, hrow]
  rw [if_neg hcx]
  rw [hins]
  simp only [set_append_cons]

/-- Computation of `editorInsertNewline` in the `cx = 0` case: an empty,
freshly built row is inserted above the current one. -/
theorem editorInsertNewline_zero_eq (syn : Option EditorSyntax) (A B : List Erow)
    (r : Erow) (dirty : Nat) :
    editorInsertNewline syn ⟨A ++ r :: B, dirty, A.length, 0⟩ =
      ⟨A ++ editorUpdateRow syn [] :: r :: B, dirty + 1, A.length + 1, 0⟩ := by
  simp only [editorInsertNewline, if_true]
  simp [editorInsertRow_eq syn A (r :: B)]

/-- Computation of the row-joining branch of `editorDelChar` (cursor at
column 0 below row `p`): the row is appended onto the previous one (which is
freshly rebuilt) and deleted; the cursor lands at the join point and
`E.dirty` grows by two. -/
theorem editorDelChar_join_eq (syn : Option EditorSyntax) (A B : List Erow)
    (p q : Erow) (dirty : Nat) :
    editorDelChar syn ⟨A ++ p :: q :: B, dirty, A.length + 1, 0⟩ =
      ⟨A ++ editorUpdateRow syn (p.chars ++ q.chars) :: B, dirty + 2,
       A.length, p.chars.length⟩ := by
  have hne : ¬(A.length + 1 = (A ++ p :: q :: B).length) := by
    simp only [List.length_append, List.length_cons]
    omega
  have hq : (A ++ p :: q :: B).getD (A.length + 1) default = q :=
    getD_append_cons_succ A p q B default
  have hp : (A ++ p :: q :: B).getD (A.length + 1 - 1) default = p := by
    have := getD_append_cons A p (q :: B) default
    simpa using this
  have hset :
      (A ++ p :: q :: B).set (A.length + 1 - 1)
          (editorUpdateRow syn (p.chars ++ q.chars)) =
        A ++ editorUpdateRow syn (p.chars ++ q.chars) :: q :: B := by
    have := set_append_cons A p (editorUpdateRow syn (p.chars ++ q.chars)) (q :: B)
    simpa using this
  have hdel :
      editorDelRow (A ++ editorUpdateRow syn (p.chars ++ q.chars) :: q :: B)
          (dirty + 1) (((A.length + 1 : Nat)) : Int) =
        (A ++ editorUpdateRow syn (p.chars ++ q.chars) :: B, dirty + 2) := by
    have hg : ¬((((A.length + 1 : Nat)) : Int) < 0 ∨
        (((A.length + 1 : Nat)) : Int) ≥
          (((A ++ editorUpdateRow syn (p.chars ++ q.chars) :: q :: B).length : Nat) : Int)) := by
      simp only [List.length_append, List.length_cons]
      push_cast
      omega
    have ht : (((A.length + 1 : Nat)) : Int).toNat = A.length + 1 := by omega
    simp only [editorDelRow, hg, if_false, ht]
    rw [take_append_cons_succ]
    rw [show A.length + 1 + 1 = A.length + 2 from rfl]
    rw [drop_append_cons2]
    simp
  simp only [editorDelChar, hq, hp]
  rw [if_neg hne]
  rw [if_neg (by simp : ¬(True ∧ A.length + 1 = 0))]
  rw [if_neg (lt_irrefl (0 : Nat))]
  dsimp only [editorRowAppendString]
  rw [hset, hdel]
  rfl

/-- C4: every row-content mutation regenerates the mutated row's render
string and highlight array before returning (the produced rows satisfy
`rowConsistent`) and increments `E.dirty` by one per source increment:
insert-char and append-string unconditionally; delete-char for every `at`
the guard admits (`0 ≤ at ≤ size`); insert-row at every valid position; and
the truncation half of split-row, whose single dirty increment comes from
the `editorInsertRow` it contains. -/
theorem c4_mutations_regenerate (syn : Option EditorSyntax) :
    (∀ (row : Erow) (at_ : Int) (c : Char) (dirty : Nat),
        rowConsistent syn (editorRowInsertChar syn row at_ c dirty).1 ∧
        (editorRowInsertChar syn row at_ c dirty).2 = dirty + 1) ∧
    (∀ (row : Erow) (s : List Char) (dirty : Nat),
        rowConsistent syn (editorRowAppendString syn row s dirty).1 ∧
        (editorRowAppendString syn row s dirty).2 = dirty + 1) ∧
    (∀ (row : Erow) (at_ : Int) (dirty : Nat),
        0 ≤ at_ → at_ ≤ (row.chars.length : Int) →
        rowConsistent syn (editorRowDelChar syn row at_ dirty).1 ∧
        (editorRowDelChar syn row at_ dirty).2 = dirty + 1) ∧
    (∀ (A B : List Erow) (s : List Char) (dirty : Nat),
        editorInsertRow syn (A ++ B) dirty (A.length : Int) s =
          (A ++ editorUpdateRow syn s :: B, dirty + 1) ∧
        rowConsistent syn (editorUpdateRow syn s)) ∧
    (∀ (A B : List Erow) (r : Erow) (dirty cx : Nat), cx ≠ 0 →
        editorInsertNewline syn ⟨A ++ r :: B, dirty, A.length, cx⟩ =
          ⟨A ++ editorUpdateRow syn (r.chars.take cx) ::
              editorUpdateRow syn (r.chars.drop cx) :: B,
           dirty + 1, A.length + 1, 0⟩ ∧
        rowConsistent syn (editorUpdateRow syn (r.chars.take cx))) := by
  refine ⟨?_, ?_, ?_, ?_, ?_⟩
  · intro row at_ c dirty
    exact ⟨⟨rfl, rfl⟩, rfl⟩
  · intro row s dirty
    exact ⟨⟨rfl, rfl⟩, rfl⟩
  · intro row at_ dirty h0 h1
    have hg : ¬(at_ < 0 ∨ at_ > (row.chars.length : Int)) := by omega
    simp only [editorRowDelChar]
    rw [if_neg hg]
    exact ⟨⟨rfl, rfl⟩, rfl⟩
  · intro A B s dirty
    exact ⟨editorInsertRow_eq syn A B s dirty, rowConsistent_editorUpdateRow syn s⟩
  · intro A B r dirty cx hcx
    exact ⟨editorInsertNewline_eq syn A B r dirty cx hcx,
           rowConsistent_editorUpdateRow syn (r.chars.take cx)⟩

/-- Witness for C4: delete-char at `at = 1` inside the two-character row
`"ab"`, and split-row at `cx = 1` on a one-row document. -/
theorem c4_mutations_regenerate_witness :
    ((0 : Int) ≤ 1 ∧ (1 : Int) ≤ (("ab".data.length : Nat) : Int) ∧
     (rowConsistent none
        (editorRowDelChar none
          ⟨"ab".data, "ab".data, [Highlight.normal, Highlight.normal]⟩ 1 0).1 ∧
      (editorRowDelChar none
        ⟨"ab".data, "ab".data, [Highlight.normal, Highlight.normal]⟩ 1 0).2 = 0 + 1)) ∧
    ((1 : Nat) ≠ 0 ∧
     (editorInsertNewline none
          ⟨[⟨"ab".data, "ab".data, [Highlight.normal, Highlight.normal]⟩], 0, 0, 1⟩ =
        ⟨[editorUpdateRow none ("ab".data.take 1),
          editorUpdateRow none ("ab".data.drop 1)], 0 + 1, 0 + 1, 0⟩ ∧
      rowConsistent none (editorUpdateRow none ("ab".data.take 1)))) :=
  ⟨⟨by decide, by decide,
    (c4_mutations_regenerate none).2.2.1
      ⟨"ab".data, "ab".data, [Highlight.normal, Highlight.normal]⟩ 1 0
      (by decide) (by decide)⟩,
   ⟨by decide,
    (c4_mutations_regenerate none).2.2.2.2 [] []
      ⟨"ab".data, "ab".data, [Highlight.normal, Highlight.normal]⟩ 0 1 (by decide)⟩⟩

/-- C8: splitting the row `r` at any column `c ≤ r.size` via
`editorInsertNewline` and joining it back via the column-0 `editorDelChar`
(append the second row onto the first, delete the second row) restores the
original raw content and size of the row and leaves the row count
unchanged. -/
theorem c8_split_join_roundtrip (syn : Option EditorSyntax) (A B : List Erow)
    (r : Erow) (dirty : Nat) (c : Nat) (hc : c ≤ r.chars.length) :
    (editorDelChar syn
        (editorInsertNewline syn ⟨A ++ r :: B, dirty, A.length, c⟩)).rows.map
        Erow.chars =
      (A ++ r :: B).map Erow.chars ∧
    (editorDelChar syn
        (editorInsertNewline syn ⟨A ++ r :: B, dirty, A.length, c⟩)).rows.length =
      (A ++ r :: B).length ∧
    ((editorDelChar syn
        (editorInsertNewline syn ⟨A ++ r :: B, dirty, A.length, c⟩)).rows.getD
        A.length default).chars = r.chars := by
  have key : editorDelChar syn (editorInsertNewline syn ⟨A ++ r :: B, dirty, A.length, c⟩) =
      ⟨A ++ editorUpdateRow syn r.chars :: B, dirty + 3, A.length, c⟩ := by
    by_cases hc0 : c = 0
    · subst hc0
      rw [editorInsertNewline_zero_eq, editorDelChar_join_eq]
      rfl
    · rw [editorInsertNewline_eq syn A B r dirty c hc0, editorDelChar_join_eq]
      have h1 : (editorUpdateRow syn (r.chars.take c)).chars ++
          (editorUpdateRow syn (r.chars.drop c)).chars = r.chars := by
        show r.chars.take c ++ r.chars.drop c = r.chars
        exact List.take_append_drop c r.chars
      have h2 : (editorUpdateRow syn (r.chars.take c)).chars.length = c := by
        show (r.chars.take c).length = c
        simp [hc]
      rw [h1, h2]
  rw [key]
  refine ⟨?_, ?_, ?_⟩
  · show (A ++ editorUpdateRow syn r.chars :: B).map Erow.chars =
      (A ++ r :: B).map Erow.chars
    simp only [List.map_append, List.map_cons]
    rfl
  · simp
  · rw [show (⟨A ++ editorUpdateRow syn r.chars :: B, dirty + 3, A.length, c⟩ :
        EState).rows = A ++ editorUpdateRow syn r.chars :: B from rfl,
      getD_append_cons]
    rfl

/-- Witness for C8: split the one-row document `"ab"` at column 1 and join
it back. -/
theorem c8_split_join_roundtrip_witness :
    (1 : Nat) ≤ "ab".data.length ∧
    ((editorDelChar none
        (editorInsertNewline none
          ⟨[⟨"ab".data, "ab".data, [Highlight.normal, Highlight.normal]⟩],
           0, 0, 1⟩)).rows.map Erow.chars =
      [(⟨"ab".data, "ab".data, [Highlight.normal, Highlight.normal]⟩ : Erow)].map
        Erow.chars ∧
     (editorDelChar none
        (editorInsertNewline none
          ⟨[⟨"ab".data, "ab".data, [Highlight.normal, Highlight.normal]⟩],
           0, 0, 1⟩)).rows.length =
      [(⟨"ab".data, "ab".data, [Highlight.normal, Highlight.normal]⟩ : Erow)].length ∧
     ((editorDelChar none
        (editorInsertNewline none
          ⟨[⟨"ab".data, "ab".data, [Highlight.normal, Highlight.normal]⟩],
           0, 0, 1⟩)).rows.getD 0 default).chars = "ab".data) :=
  ⟨by decide,
   c8_split_join_roundtrip none [] []
     ⟨"ab".data, "ab".data, [Highlight.normal, Highlight.normal]⟩ 0 1 (by decide)⟩

/-- One step of the find scan with forward direction: when the stepped
position is either 0 directly or wraps from `numrows` to 0, and row 0's
render string contains the query, the scan stops at row 0. -/
theorem findScanLoop_wrap_head (rows : List Erow) (query : List Char) (off : Nat)
    (fuel : Nat) (current : Int) (hfuel : 0 < fuel) (hne : rows ≠ [])
    (hcur : current + 1 = 0 ∨ current + 1 = (rows.length : Int))
    (hm : strstrIdx (rows.getD 0 default).render query = some off) :
    findScanLoop rows query 1 fuel current = some (0, off) := by
  obtain ⟨n, rfl⟩ : ∃ n, fuel = n + 1 := ⟨fuel - 1, by omega⟩
  have hlen : 0 < rows.length := List.length_pos.mpr hne
  have hlenI : (1 : Int) ≤ (rows.length : Int) := by exact_mod_cast hlen
  have hcur2 : (if current + 1 = -1 then (rows.length : Int) - 1
      else if current + 1 = (rows.length : Int) then 0 else current + 1) = 0 := by
    rcases hcur with h | h
    · rw [h]
      rw [if_neg (by omega : ¬((0 : Int) = -1))]
      by_cases hz : (0 : Int) = (rows.length : Int)
      · rw [if_pos hz]
      · rw [if_neg hz]
    · rw [h]
      rw [if_neg (by omega : ¬((rows.length : Int) = -1))]
      rw [if_pos rfl]
  simp only [findScanLoop, hcur2]
  rw [show ((0 : Int)).toNat = 0 from rfl]
  rw [hm]

/-- C7: the incremental-search scan wraps around the document.  With a query
that occurs in row 0: (a) a search initiated by typing a query character
(fresh static state, `last_match = -1`) finds the row-0 match regardless of
the cursor row; and (b) continuing forward (ARROW_DOWN) from a match on the
last row (`last_match = numrows - 1`) steps to `numrows`, wraps to 0, and
finds the row-0 match.  In both cases the cursor moves to row 0 and
`last_match` becomes 0. -/
theorem c7_search_wraps (rows : List Erow) (query : List Char) (off : Nat)
    (cy cx rowoff : Nat) (hne : rows ≠ [])
    (hm : strstrIdx (rows.getD 0 default).render query = some off) :
    ((editorFindCallback query FKey.other ⟨-1, 1, none⟩ ⟨rows, cy, cx, rowoff⟩).2.cy = 0 ∧
     (editorFindCallback query FKey.other ⟨-1, 1, none⟩ ⟨rows, cy, cx, rowoff⟩).1.last_match = 0) ∧
    ((editorFindCallback query FKey.arrowDown
        ⟨(rows.length : Int) - 1, 1, none⟩ ⟨rows, cy, cx, rowoff⟩).2.cy = 0 ∧
     (editorFindCallback query FKey.arrowDown
        ⟨(rows.length : Int) - 1, 1, none⟩ ⟨rows, cy, cx, rowoff⟩).1.last_match = 0) := by
  have hlen : 0 < rows.length := List.length_pos.mpr hne
  have hscan1 : findScanLoop rows query 1 rows.length (-1) = some (0, off) :=
    findScanLoop_wrap_head rows query off rows.length (-1) hlen hne
      (Or.inl (by omega)) hm
  have hscan2 : findScanLoop rows query 1 rows.length ((rows.length : Int) - 1) =
      some (0, off) :=
    findScanLoop_wrap_head rows query off rows.length ((rows.length : Int) - 1)
      hlen hne (Or.inr (by ring)) hm
  constructor
  · simp only [editorFindCallback, if_true]
    simp only [hscan1]
    simp
  · simp only [editorFindCallback, ite_self]
    simp only [hscan2]
    simp

/-- Witness for C7: in the three-row document whose only `"needle"` match is
in row 0, both the freshly initiated search and the wrap-around continuation
from the last row move the cursor to row 0. -/
theorem c7_search_wraps_witness :
    findW ≠ [] ∧
    strstrIdx (findW.getD 0 default).render "needle".data = some 0 ∧
    (((editorFindCallback "needle".data FKey.other ⟨-1, 1, none⟩
          ⟨findW, 2, 0, 0⟩).2.cy = 0 ∧
      (editorFindCallback "needle".data FKey.other ⟨-1, 1, none⟩
          ⟨findW, 2, 0, 0⟩).1.last_match = 0) ∧
     ((editorFindCallback "needle".data FKey.arrowDown
          ⟨(findW.length : Int) - 1, 1, none⟩ ⟨findW, 2, 0, 0⟩).2.cy = 0 ∧
      (editorFindCallback "needle".data FKey.arrowDown
          ⟨(findW.length : Int) - 1, 1, none⟩ ⟨findW, 2, 0, 0⟩).1.last_match = 0)) :=
  ⟨by decide, by decide,
   c7_search_wraps findW "needle".data 0 2 0 0 (by decide) (by decide)⟩

end Kilo
